import Mathlib

/-!
Shallow embedding of the decision core of `check_stock_price/main.py`
(class `RoboInvestor`): the freshness cache (`load_or_request_data`),
the time-series extraction and evaluation loop (`check_stock_prices`),
and the sizing function (`calculate_investment_dollars`).

Modelling conventions:
 - Python floats are modelled as real numbers (`ℝ`) where the code does
   transcendental arithmetic (`math.exp`), and as rationals (`ℚ`) for the
   price / percentage data that only passes through field arithmetic and
   comparisons, so that those parts stay kernel-executable.
 - A Python exception is modelled as `Except`: `EngineError` names the
   exception site (`divisionByZero` for `ZeroDivisionError`,
   `insufficientData` for the `ValueError` or `IndexError` raised by
   `max()` or `sorted(keys)[-2]` on fewer than two observations,
   `dataUnavailable` for a `KeyError` on the top-level payload key).
 - The raw API payload is reduced to the part the code reads: the optional
   top-level time-series mapping, each observation reduced to its
   close-price field.
 - File-system state for one ticker is an optional pair of payload and
   modification time (seconds); `pendulum.now()` is a `now` argument.
   The expression `pendulum.now().diff(mtime).minutes` is the minutes
   component of the elapsed interval, that is
   `(elapsed_seconds / 60) % 60`, not the total elapsed minutes.
-/

namespace CheckStockPrice

/-- Exception sites of the Python decision core. -/
inductive EngineError where
  | dataUnavailable
  | insufficientData
  | divisionByZero
  deriving DecidableEq, Repr

/-- The `Parameters` dataclass loaded from the parameter store. -/
structure Parameters where
  target_account_balance : ℝ
  threshold_data_age_minutes : ℤ
  investment_aggression : ℝ
  percentage_fall_threshold : ℚ
  alphavantage_api_key : String

/-- A timestamp label of the time series, as Python sees it: a string,
that is a sequence of code points, compared lexicographically. -/
abbrev Timestamp := List Char

/-- A raw API payload: the optional mapping under the key
`Time Series (5min)`, each timestamp key mapped to the value of its
`4. close` field. -/
structure Payload where
  timeSeries : Option (List (Timestamp × ℚ))
  deriving DecidableEq, Repr

/-- Result of one `load_or_request_data` call: the returned data, the
state of the local file afterwards, and whether the API was called. -/
structure CacheResult where
  data : Payload
  stored : Option (Payload × ℕ)
  fetchedFromApi : Bool
  deriving DecidableEq, Repr

/-- Python `threshold_minutes or default`: `None` and `0` are falsy, any
other integer is kept (line 88 of the source). -/
def orDefault (override : Option ℤ) (dflt : ℤ) : ℤ :=
  match override with
  | none => dflt
  | some t => if t = 0 then dflt else t

/-- The value of `pendulum.now().diff(modified_time).minutes`: the minutes
component of the elapsed interval, `(elapsed seconds / 60) % 60`. -/
def diffMinutes (now mtime : ℕ) : ℤ :=
  (((now - mtime) / 60) % 60 : ℕ)

/-- `RoboInvestor.load_or_request_data` (lines 87 to 105): resolve the
threshold with Python `or` truthiness, fetch and save when no local file
exists or when the computed age exceeds the threshold, otherwise serve
the stored payload unchanged. `fetchResult` is the payload the API would
return if called. -/
def load_or_request_data (threshold_minutes : Option ℤ) (default_threshold : ℤ)
    (now : ℕ) (stored : Option (Payload × ℕ)) (fetchResult : Payload) : CacheResult :=
  let threshold := orDefault threshold_minutes default_threshold
  match stored with
  | none => ⟨fetchResult, some (fetchResult, now), true⟩
  | some (data, mtime) =>
    if diffMinutes now mtime > threshold then ⟨fetchResult, some (fetchResult, now), true⟩
    else ⟨data, some (data, mtime), false⟩

/-- Python dict lookup `latest_data[key]`, restricted to the close field. -/
def lookupClose (series : List (Timestamp × ℚ)) (k : Timestamp) : Option ℚ :=
  match series with
  | [] => none
  | (k₁, v) :: rest => if k₁ = k then some v else lookupClose rest k

/-- Lines 135 to 137 of the source: `latest_timestamp = max(keys)`,
`current = data[latest]['4. close']`,
`previous = data[sorted(keys)[-2]]['4. close']`. `max()` on an empty
sequence and `sorted(keys)[-2]` on fewer than two keys raise, modelled
as `insufficientData`. The lookup fallback branch is unreachable because
both keys are drawn from the series itself. -/
def extractPrices (series : List (Timestamp × ℚ)) : Except EngineError (ℚ × ℚ) :=
  let keys := series.map Prod.fst
  match keys.max? with
  | none => .error .insufficientData
  | some latest =>
    let sortedKeys := List.insertionSort (· ≤ ·) keys
    if sortedKeys.length < 2 then .error .insufficientData
    else
      match lookupClose series latest, lookupClose series (sortedKeys.getD (sortedKeys.length - 2) []) with
      | some current_price, some prev_close_price => .ok (current_price, prev_close_price)
      | _, _ => .error .dataUnavailable

/-- The recommendation printed for one ticker: either the HOLD row or the
BUY row carrying the computed purchase dollars and the share count. -/
inductive Recommendation where
  | hold
  | buy (dollars : ℝ) (shares : ℤ)

/-- The body of `RoboInvestor.calculate_investment_dollars` (lines 114 to
119), as real arithmetic. The source computes
`multiplier * abs(percentage_change ** 2)`. -/
noncomputable def investmentDollars (target aggression account_balance percentage_change : ℝ) : ℝ :=
  let difference := account_balance - target
  let percent_over := difference / target
  let multiplier := difference * Real.exp percent_over * aggression
  multiplier * |percentage_change ^ 2|

open Classical in
/-- `RoboInvestor.calculate_investment_dollars`: Python float division
`difference / target` raises `ZeroDivisionError` when the target is zero,
otherwise the formula value is returned. -/
noncomputable def calculate_investment_dollars (p : Parameters)
    (account_balance percentage_change : ℝ) : Except EngineError ℝ :=
  if p.target_account_balance = 0 then .error .divisionByZero
  else .ok (investmentDollars p.target_account_balance p.investment_aggression
      account_balance percentage_change)

/-- Lines 138 to 144 of the source: compute
`percentage_change = ((current - prev) / prev) * 100` (raising on a zero
previous close), then either size a purchase (`shares = int(dollars //
current_price)`, floor division) when the change is strictly below the
fall threshold, or hold. There is no guard on the sign of the computed
dollars: the buy branch is taken whenever the threshold test passes. -/
noncomputable def evaluatePrices (p : Parameters) (account_balance : ℝ)
    (current_price prev_close_price : ℚ) : Except EngineError Recommendation :=
  if prev_close_price = 0 then .error .divisionByZero
  else
    let percentage_change := (current_price - prev_close_price) / prev_close_price * 100
    if percentage_change < p.percentage_fall_threshold then
      match calculate_investment_dollars p account_balance (percentage_change : ℝ) with
      | .error e => .error e
      | .ok purchase_dollars =>
        .ok (.buy purchase_dollars ⌊purchase_dollars / (current_price : ℝ)⌋)
    else .ok .hold

/-- One iteration of the loop in `check_stock_prices` (lines 132 to 155)
for a single ticker: the fetched payload (or the exception the fetch
raised), the `data['Time Series (5min)']` access, the extraction of the
two most recent closes, and the evaluation. -/
noncomputable def evalTicker (p : Parameters) (account_balance : ℝ)
    (fetched : Except EngineError Payload) : Except EngineError Recommendation :=
  match fetched with
  | .error e => .error e
  | .ok payload =>
    match payload.timeSeries with
    | none => .error .dataUnavailable
    | some series =>
      match extractPrices series with
      | .error e => .error e
      | .ok (current_price, prev_close_price) =>
        evaluatePrices p account_balance current_price prev_close_price

/-- The loop of `RoboInvestor.check_stock_prices` over the configured
tickers. The loop body has no exception handler, so the first per-ticker
exception propagates out of the loop and the remaining tickers are never
evaluated; on success every ticker's recommendation is collected. -/
noncomputable def check_stock_prices (p : Parameters) (account_balance : ℝ) :
    List (String × Except EngineError Payload) →
      Except EngineError (List (String × Recommendation))
  | [] => .ok []
  | (ticker, fetched) :: rest =>
    match evalTicker p account_balance fetched with
    | .error e => .error e
    | .ok rec =>
      match check_stock_prices p account_balance rest with
      | .error e => .error e
      | .ok decisions => .ok ((ticker, rec) :: decisions)

/-- A concrete parameter set matching the scenario of the specification:
target 5000, data-age threshold 30 minutes, aggression one half, fall
threshold minus five percent. -/
noncomputable def sampleParameters : Parameters := ⟨5000, 30, 1/2, -5, "key"⟩

/-- The same parameter set with a zero target account balance. -/
noncomputable def zeroTargetParameters : Parameters := ⟨0, 30, 1/2, -5, "key"⟩

/-- Claim C10: an explicit staleness-threshold override of zero is falsy
under Python `or`, so it is discarded and the configured default is used:
the call is indistinguishable from a call with no override, hence a zero
override cannot force an unconditional refresh. -/
theorem C10_zero_threshold_override (dflt : ℤ) (now : ℕ)
    (stored : Option (Payload × ℕ)) (fetchResult : Payload) :
    orDefault (some 0) dflt = dflt ∧
      load_or_request_data (some 0) dflt now stored fetchResult =
        load_or_request_data none dflt now stored fetchResult := by
  constructor
  · simp [orDefault]
  · cases stored with
    | none => simp [load_or_request_data]
    | some s => obtain ⟨pl, mtime⟩ := s; simp [load_or_request_data, orDefault]

/-- Claim C3, evaluation of the code at the failing input: a stored
payload whose age is exactly two hours (modification time 0, now 7200
seconds) with a staleness threshold of 30 minutes is served from the
cache without any fetch, because the code compares only the minutes
component of the elapsed interval, `(7200 / 60) % 60 = 0`, against the
threshold. The claim requires a refresh here since the age, 120 minutes,
exceeds the threshold. -/
theorem C3_code_evaluation :
    load_or_request_data none 30 7200 (some (⟨some [("09:00".toList, 10)]⟩, 0)) ⟨none⟩ =
      ⟨⟨some [("09:00".toList, 10)]⟩, some (⟨some [("09:00".toList, 10)]⟩, 0), false⟩ := by
  decide

/-- Claim C7: a time-series payload with fewer than two observations
makes the extraction fail: with zero observations Python `max()` raises,
with one observation `sorted(keys)[-2]` raises. -/
theorem C7_insufficient_data (series : List (Timestamp × ℚ))
    (h : series.length < 2) :
    extractPrices series = .error .insufficientData := by
  match series with
  | [] => rfl
  | [(k, v)] => rfl
  | x :: y :: rest => simp only [List.length_cons] at h; omega

/-- Witness for claim C7 at a one-observation payload. -/
theorem C7_insufficient_data_witness :
    ([(("09:00".toList : Timestamp), (10 : ℚ))].length < 2) ∧
      extractPrices [("09:00".toList, 10)] = .error .insufficientData :=
  ⟨by decide, C7_insufficient_data _ (by decide)⟩

/-- Claim C2, counterexample: a batch of two tickers where the first has
a single-observation payload and the second a well-formed one. The loop
has no per-instrument exception handler, so the whole run aborts with
the first instrument's error; the second instrument is never evaluated
and no successes are reported, contradicting the claimed partial-failure
semantics. -/
theorem C2_counterexample :
    check_stock_prices sampleParameters 10000
      [("BAD", .ok ⟨some [("09:00".toList, 10)]⟩),
       ("GOOD", .ok ⟨some [("09:00".toList, 100), ("09:05".toList, 100)]⟩)] =
      .error .insufficientData := by
  rfl

/-- Claim C2, amended: a per-instrument failure is not caught at any
per-instrument boundary; the first failing ticker's exception propagates
out of the loop, aborting the whole batch, and the remaining tickers are
never evaluated. -/
theorem C2_amended (p : Parameters) (account_balance : ℝ)
    (ticker : String) (fetched : Except EngineError Payload)
    (rest : List (String × Except EngineError Payload)) (e : EngineError)
    (h : evalTicker p account_balance fetched = .error e) :
    check_stock_prices p account_balance ((ticker, fetched) :: rest) = .error e := by
  simp only [check_stock_prices, h]

/-- Witness for the amended claim C2: a ticker whose payload has one
observation fails the whole batch, whatever follows it. -/
theorem C2_amended_witness :
    (evalTicker sampleParameters 10000 (.ok ⟨some [("09:00".toList, 10)]⟩) =
      .error .insufficientData) ∧
      check_stock_prices sampleParameters 10000
        [("BAD", .ok ⟨some [("09:00".toList, 10)]⟩),
         ("OTHER", .ok ⟨some [("09:00".toList, 95), ("09:05".toList, 100)]⟩),
         ("LAST", .error .dataUnavailable)] =
        .error .insufficientData :=
  ⟨by rfl, C2_amended _ _ _ _ _ _ (by rfl)⟩

/-- Claim C6, counterexample: with a zero target account balance the run
does not fail before any instrument is processed; no validation of the
target exists. Here an instrument whose percentage change does not cross
the fall threshold is fetched, extracted and evaluated, and the run
completes normally with a Hold recommendation. -/
theorem C6_counterexample :
    check_stock_prices zeroTargetParameters 10000
      [("XYZ", .ok ⟨some [("09:00".toList, 100), ("09:05".toList, 100)]⟩)] =
      .ok [("XYZ", .hold)] := by
  have hextract : extractPrices [("09:00".toList, 100), ("09:05".toList, 100)] = .ok (100, 100) := by rfl
  have heval : evaluatePrices zeroTargetParameters 10000 100 100 = .ok .hold := by
    simp only [evaluatePrices]
    rw [if_neg (by norm_num : ¬((100 : ℚ) = 0)),
      if_neg (by norm_num [zeroTargetParameters] :
        ¬((100 - 100 : ℚ) / 100 * 100 < zeroTargetParameters.percentage_fall_threshold))]
  simp only [check_stock_prices, evalTicker, hextract, heval]

/-- Claim C6, amended: a zero target is not validated at load and there
is no InvalidParameterError; instead, the zero target surfaces as a
division-by-zero failure inside the sizing computation, which happens
only when some instrument's percentage change crosses the fall
threshold. Runs in which no instrument triggers sizing complete without
any error. -/
theorem C6_amended (p : Parameters) (account_balance : ℝ)
    (current_price prev_close_price : ℚ)
    (htarget : p.target_account_balance = 0) (hprev : prev_close_price ≠ 0)
    (htrig : (current_price - prev_close_price) / prev_close_price * 100 <
      p.percentage_fall_threshold) :
    evaluatePrices p account_balance current_price prev_close_price =
      .error .divisionByZero := by
  simp only [evaluatePrices, if_neg hprev, if_pos htrig,
    calculate_investment_dollars, if_pos htarget]

/-- Witness for the amended claim C6: a ten percent drop with a zero
target reaches the sizing computation and fails there. -/
theorem C6_amended_witness :
    (zeroTargetParameters.target_account_balance = 0 ∧ ((100 : ℚ) ≠ 0) ∧
      ((90 - 100 : ℚ) / 100 * 100 < zeroTargetParameters.percentage_fall_threshold)) ∧
      evaluatePrices zeroTargetParameters 10000 90 100 = .error .divisionByZero :=
  ⟨⟨by simp [zeroTargetParameters], by norm_num, by norm_num [zeroTargetParameters]⟩,
    C6_amended _ _ _ _ (by simp [zeroTargetParameters]) (by norm_num)
      (by norm_num [zeroTargetParameters])⟩

/-- Claim C5: for a nonzero target the sizing function returns exactly
the difference times the exponential of the difference over the target,
times the aggression, times the squared percentage change (the abs the
source wraps around the square is redundant), and the output is an even
function of the percentage change. -/
theorem C5_sizing_formula (p : Parameters) (account_balance percentage_change : ℝ)
    (ht : p.target_account_balance ≠ 0) :
    calculate_investment_dollars p account_balance percentage_change =
      .ok ((account_balance - p.target_account_balance) *
        Real.exp ((account_balance - p.target_account_balance) / p.target_account_balance) *
        p.investment_aggression * percentage_change ^ 2) ∧
      calculate_investment_dollars p account_balance percentage_change =
        calculate_investment_dollars p account_balance (-percentage_change) := by
  constructor
  · simp only [calculate_investment_dollars, if_neg ht, investmentDollars]
    rw [abs_of_nonneg (sq_nonneg percentage_change)]
  · simp only [calculate_investment_dollars, if_neg ht, investmentDollars, neg_sq]

/-- Witness for claim C5 at the specification's sample values. -/
theorem C5_sizing_formula_witness :
    sampleParameters.target_account_balance ≠ 0 ∧
      calculate_investment_dollars sampleParameters 10000 (-10) =
        .ok ((10000 - sampleParameters.target_account_balance) *
          Real.exp ((10000 - sampleParameters.target_account_balance) /
            sampleParameters.target_account_balance) *
          sampleParameters.investment_aggression * (-10 : ℝ) ^ 2) :=
  ⟨by norm_num [sampleParameters],
    (C5_sizing_formula sampleParameters 10000 (-10) (by norm_num [sampleParameters])).1⟩

/-- Claim C8: with a positive target and aggression, the sizing output
strictly grows with the magnitude of the percentage change when the
balance sits strictly above the target, and strictly grows with the
balance above the target for a fixed nonzero percentage change. -/
theorem C8_monotonicity (target aggression b b1 b2 p1 p2 : ℝ)
    (ht : 0 < target) (ha : 0 < aggression) :
    (target < b → |p1| < |p2| →
      investmentDollars target aggression b p1 < investmentDollars target aggression b p2) ∧
    (target < b1 → b1 < b2 → p1 ≠ 0 →
      investmentDollars target aggression b1 p1 < investmentDollars target aggression b2 p1) := by
  constructor
  · intro hb hp
    simp only [investmentDollars]
    rw [abs_of_nonneg (sq_nonneg p1), abs_of_nonneg (sq_nonneg p2)]
    have hM : 0 < (b - target) * Real.exp ((b - target) / target) * aggression :=
      mul_pos (mul_pos (by linarith) (Real.exp_pos _)) ha
    have hsq : p1 ^ 2 < p2 ^ 2 := by
      have h2 := pow_lt_pow_left₀ hp (abs_nonneg p1) (two_ne_zero)
      rwa [sq_abs, sq_abs] at h2
    exact mul_lt_mul_of_pos_left hsq hM
  · intro hb1 hb2 hp
    simp only [investmentDollars]
    rw [abs_of_nonneg (sq_nonneg p1)]
    have hq : 0 < p1 ^ 2 := lt_of_le_of_ne (sq_nonneg p1) (Ne.symm (pow_ne_zero 2 hp))
    have hx1 : (0 : ℝ) < b1 - target := by linarith
    have hx12 : b1 - target < b2 - target := by linarith
    have he : Real.exp ((b1 - target) / target) < Real.exp ((b2 - target) / target) :=
      Real.exp_lt_exp.mpr ((div_lt_div_iff_of_pos_right ht).mpr hx12)
    have hcore : (b1 - target) * Real.exp ((b1 - target) / target) <
        (b2 - target) * Real.exp ((b2 - target) / target) :=
      mul_lt_mul'' hx12 he hx1.le (Real.exp_pos _).le
    exact mul_lt_mul_of_pos_right (mul_lt_mul_of_pos_right hcore ha) hq

/-- Witness for claim C8 at concrete values: target 5000, aggression one
half, balances 6000 and 7000, percentage changes 1 and 2. -/
theorem C8_monotonicity_witness :
    ((0 : ℝ) < 5000 ∧ (0 : ℝ) < 1/2 ∧ (5000 : ℝ) < 6000 ∧ |(1 : ℝ)| < |(2 : ℝ)| ∧
      (6000 : ℝ) < 7000 ∧ (1 : ℝ) ≠ 0) ∧
      investmentDollars 5000 (1/2) 6000 1 < investmentDollars 5000 (1/2) 6000 2 ∧
      investmentDollars 5000 (1/2) 6000 1 < investmentDollars 5000 (1/2) 7000 1 :=
  ⟨⟨by norm_num, by norm_num, by norm_num, by rw [abs_one, abs_two]; norm_num,
      by norm_num, by norm_num⟩,
    (C8_monotonicity 5000 (1/2) 6000 6000 7000 1 2 (by norm_num) (by norm_num)).1
      (by norm_num) (by rw [abs_one, abs_two]; norm_num),
    (C8_monotonicity 5000 (1/2) 6000 6000 7000 1 2 (by norm_num) (by norm_num)).2
      (by norm_num) (by norm_num) (by norm_num)⟩

/-- Claim C1, evaluation of the code at the failing input: with balance
1000 below the target 5000 and a ten percent price drop (current 90,
previous 100), the engine emits a Buy recommendation whose dollar amount
is negative, because the buy branch has no guard on the sign of the
computed dollars. The claim requires Hold here. -/
theorem C1_code_evaluation :
    ∃ d s, evaluatePrices sampleParameters 1000 90 100 = .ok (.buy d s) ∧ d < 0 := by
  refine ⟨investmentDollars sampleParameters.target_account_balance
      sampleParameters.investment_aggression 1000 (((90 - 100 : ℚ) / 100 * 100 : ℚ) : ℝ),
    ⌊investmentDollars sampleParameters.target_account_balance
      sampleParameters.investment_aggression 1000 (((90 - 100 : ℚ) / 100 * 100 : ℚ) : ℝ) /
      ((90 : ℚ) : ℝ)⌋, ?_, ?_⟩
  · simp only [evaluatePrices]
    rw [if_neg (by norm_num : ¬((100 : ℚ) = 0)),
      if_pos (by norm_num [sampleParameters] :
        ((90 - 100 : ℚ) / 100 * 100 < sampleParameters.percentage_fall_threshold))]
    simp only [calculate_investment_dollars]
    rw [if_neg (by norm_num [sampleParameters] :
      ¬(sampleParameters.target_account_balance = 0))]
  · have hcast : (((90 - 100 : ℚ) / 100 * 100 : ℚ) : ℝ) = -10 := by norm_num
    rw [hcast]
    simp only [investmentDollars, sampleParameters]
    rw [abs_of_nonneg (sq_nonneg _)]
    nlinarith [Real.exp_pos ((1000 - 5000 : ℝ) / 5000)]

/-- Claim C9: the buy trigger is strict, so a percentage change exactly
equal to the fall threshold yields Hold; and any Buy recommendation the
engine emits carries the floor of dollars over current price as its
share count. -/
theorem C9_strict_trigger (p : Parameters) (account_balance : ℝ)
    (current_price prev_close_price : ℚ) :
    (prev_close_price ≠ 0 →
      (current_price - prev_close_price) / prev_close_price * 100 =
        p.percentage_fall_threshold →
      evaluatePrices p account_balance current_price prev_close_price = .ok .hold) ∧
    (∀ d s, evaluatePrices p account_balance current_price prev_close_price =
        .ok (.buy d s) →
      s = ⌊d / (current_price : ℝ)⌋) := by
  constructor
  · intro hprev heq
    simp only [evaluatePrices]
    rw [if_neg hprev, if_neg (by rw [heq]; exact lt_irrefl _)]
  · intro d s h
    simp only [evaluatePrices] at h
    split at h
    · exact absurd h (by simp)
    · split at h
      · split at h
        · exact absurd h (by simp)
        · rw [Except.ok.injEq, Recommendation.buy.injEq] at h
          rw [← h.1, ← h.2]
      · exact absurd h (by simp)

/-- Witness for claim C9 at the specification's boundary scenario:
threshold minus five, current close 95, previous close 100, so the
percentage change is exactly minus five and the engine holds. -/
theorem C9_strict_trigger_witness :
    (((100 : ℚ) ≠ 0) ∧
      ((95 - 100 : ℚ) / 100 * 100 = sampleParameters.percentage_fall_threshold)) ∧
      evaluatePrices sampleParameters 10000 95 100 = .ok .hold :=
  ⟨⟨by norm_num, by norm_num [sampleParameters]⟩,
    (C9_strict_trigger sampleParameters 10000 95 100).1 (by norm_num)
      (by norm_num [sampleParameters])⟩

/-- A key present among the series keys is found by the dict lookup, and
the returned value is bound to that key in the series. -/
theorem lookupClose_of_mem {series : List (Timestamp × ℚ)} {k : Timestamp}
    (hk : k ∈ series.map Prod.fst) :
    ∃ v, lookupClose series k = some v ∧ (k, v) ∈ series := by
  induction series with
  | nil => simp at hk
  | cons a rest ih =>
    obtain ⟨k₁, v₁⟩ := a
    by_cases h : k₁ = k
    · subst h
      exact ⟨v₁, by simp [lookupClose], by simp⟩
    · rw [List.map_cons, List.mem_cons] at hk
      rcases hk with h₁ | h₂
      · exact absurd h₁.symm h
      · obtain ⟨v, hv, hmem⟩ := ih h₂
        exact ⟨v, by simpa [lookupClose, h] using hv, List.mem_cons_of_mem _ hmem⟩

/-- Every member of a list sorted ascending is at most its last element. -/
theorem sorted_mem_le_getLast : ∀ {l : List Timestamp}, l.Sorted (· ≤ ·) →
    ∀ (hne : l ≠ []) {b : Timestamp}, b ∈ l → b ≤ l.getLast hne := by
  intro l
  induction l with
  | nil => intro _ hne; exact absurd rfl hne
  | cons a t ih =>
    intro hs hne b hb
    rcases List.mem_cons.mp hb with rfl | hbt
    · cases t with
      | nil => simp
      | cons c t₂ =>
        have h₁ : ∀ x ∈ c :: t₂, b ≤ x := (List.sorted_cons.mp hs).1
        have h₂ := h₁ _ (List.getLast_mem (show (c :: t₂) ≠ [] by simp))
        simpa only [List.getLast_cons] using h₂
    · cases t with
      | nil => simp at hbt
      | cons c t₂ =>
        have ihh := ih (List.sorted_cons.mp hs).2 (by simp) hbt
        simpa only [List.getLast_cons] using ihh

/-- Core fact about the source's second-key selection: in a sorted
permutation of a duplicate-free key list, the element at index length
minus two is a key distinct from the maximum that dominates every other
key: the second-greatest key. -/
theorem secondKey_spec {keys s : List Timestamp} {m : Timestamp}
    (hperm : s.Perm keys) (hsorted : s.Sorted (· ≤ ·)) (hnd : keys.Nodup)
    (hm : m ∈ keys ∧ ∀ b ∈ keys, b ≤ m) (hlen : 2 ≤ s.length) :
    s.getD (s.length - 2) [] ∈ keys ∧ s.getD (s.length - 2) [] ≠ m ∧
      ∀ k ∈ keys, k ≠ m → k ≤ s.getD (s.length - 2) [] := by
  have hsne : s ≠ [] := by intro h; rw [h] at hlen; simp at hlen
  have hidx : s.length - 2 < s.length := by omega
  have hgetD : s.getD (s.length - 2) [] = s.get ⟨s.length - 2, hidx⟩ := by
    simp [List.getD_eq_getElem?_getD, List.getElem?_eq_getElem hidx, List.get_eq_getElem]
  have hmem_s : m ∈ s := hperm.mem_iff.mpr hm.1
  have hlast_mem_keys : s.getLast hsne ∈ keys := hperm.mem_iff.mp (List.getLast_mem hsne)
  have hmlast : m = s.getLast hsne :=
    le_antisymm (sorted_mem_le_getLast hsorted hsne hmem_s) (hm.2 _ hlast_mem_keys)
  have hnds : s.Nodup := hperm.nodup_iff.mpr hnd
  have hlast_get : s.getLast hsne = s.get ⟨s.length - 1, by omega⟩ := by
    rw [List.getLast_eq_getElem]; simp [List.get_eq_getElem]
  refine ⟨?_, ?_, ?_⟩
  · rw [hgetD]; exact hperm.mem_iff.mp (List.get_mem s _ _)
  · rw [hgetD, hmlast, hlast_get]
    intro hcontra
    have h₁ := (hnds.get_inj_iff).mp hcontra
    have h₂ : s.length - 2 = s.length - 1 := congrArg Fin.val h₁
    omega
  · intro k hk hkne
    have hk_s : k ∈ s := hperm.mem_iff.mpr hk
    obtain ⟨i, hik⟩ := List.mem_iff_get.mp hk_s
    have hine : (i : ℕ) ≠ s.length - 1 := by
      intro hieq
      apply hkne
      rw [← hik, hmlast, hlast_get]
      congr 1
      exact Fin.ext hieq
    have hfin : i ≤ (⟨s.length - 2, hidx⟩ : Fin s.length) := by
      have h₃ := i.isLt
      rw [Fin.le_def]
      show (i : ℕ) ≤ s.length - 2
      omega
    rw [hgetD, ← hik]
    exact hsorted.rel_get_of_le hfin

/-- Claim C4: on a payload with at least two observations and distinct
timestamp keys, the extraction returns the value stored at the lexically
greatest key as the current price and the value stored at the
second-greatest key as the previous price. -/
theorem C4_extraction (series : List (Timestamp × ℚ))
    (hnd : (series.map Prod.fst).Nodup) (hlen : 2 ≤ series.length) :
    ∃ k₁ k₂ current_price prev_close_price,
      extractPrices series = .ok (current_price, prev_close_price) ∧
      (k₁, current_price) ∈ series ∧ (k₂, prev_close_price) ∈ series ∧ k₂ ≠ k₁ ∧
      (∀ k ∈ series.map Prod.fst, k ≤ k₁) ∧
      (∀ k ∈ series.map Prod.fst, k ≠ k₁ → k ≤ k₂) := by
  have hkl : (series.map Prod.fst).length = series.length := List.length_map _ _
  have hkne : series.map Prod.fst ≠ [] := by
    intro h; rw [h] at hkl; simp at hkl; omega
  obtain ⟨m, hm⟩ : ∃ m, (series.map Prod.fst).max? = some m := by
    cases hmax : (series.map Prod.fst).max? with
    | none => exact absurd (List.max?_eq_none_iff.mp hmax) hkne
    | some m => exact ⟨m, rfl⟩
  have hmspec : m ∈ series.map Prod.fst ∧ ∀ b ∈ series.map Prod.fst, b ≤ m := by
    haveI : Std.Antisymm ((· : Timestamp) ≤ ·) := ⟨fun h h' => le_antisymm h h'⟩
    exact (List.max?_eq_some_iff (fun a => le_refl a) (fun a b => max_choice a b)
      (fun _ _ _ => max_le_iff)).mp hm
  have hsorted := List.sorted_insertionSort (· ≤ ·) (series.map Prod.fst)
  have hperm := List.perm_insertionSort (· ≤ ·) (series.map Prod.fst)
  have hslen : (List.insertionSort (· ≤ ·) (series.map Prod.fst)).length = series.length := by
    rw [List.length_insertionSort, hkl]
  have hs2 : 2 ≤ (List.insertionSort (· ≤ ·) (series.map Prod.fst)).length := by omega
  obtain ⟨hk₂mem, hk₂ne, hk₂prop⟩ := secondKey_spec hperm hsorted hnd hmspec hs2
  obtain ⟨c, hc, hcmem⟩ := lookupClose_of_mem hmspec.1
  obtain ⟨pv, hp, hpmem⟩ := lookupClose_of_mem hk₂mem
  refine ⟨m, _, c, pv, ?_, hcmem, hpmem, hk₂ne, hmspec.2, hk₂prop⟩
  simp only [extractPrices, hm]
  rw [if_neg (by omega :
    ¬ (List.insertionSort (· ≤ ·) (series.map Prod.fst)).length < 2)]
  rw [hc, hp]

/-- Witness for claim C4 at the payload of the specification, whose
extraction yields current 9 at key 09:10 and previous 11 at key 09:05. -/
theorem C4_extraction_witness :
    (([("09:00".toList, (10 : ℚ)), ("09:05".toList, 11), ("09:10".toList, 9)].map
        Prod.fst).Nodup ∧
      2 ≤ ([("09:00".toList, (10 : ℚ)), ("09:05".toList, 11),
        ("09:10".toList, 9)] : List (Timestamp × ℚ)).length) ∧
      extractPrices [("09:00".toList, 10), ("09:05".toList, 11), ("09:10".toList, 9)] =
        .ok (9, 11) ∧
      (∃ k₁ k₂ current_price prev_close_price,
        extractPrices [("09:00".toList, 10), ("09:05".toList, 11), ("09:10".toList, 9)] =
          .ok (current_price, prev_close_price) ∧
        (k₁, current_price) ∈
          [("09:00".toList, (10 : ℚ)), ("09:05".toList, 11), ("09:10".toList, 9)] ∧
        (k₂, prev_close_price) ∈
          [("09:00".toList, (10 : ℚ)), ("09:05".toList, 11), ("09:10".toList, 9)] ∧
        k₂ ≠ k₁ ∧
        (∀ k ∈ [("09:00".toList, (10 : ℚ)), ("09:05".toList, 11),
          ("09:10".toList, 9)].map Prod.fst, k ≤ k₁) ∧
        (∀ k ∈ [("09:00".toList, (10 : ℚ)), ("09:05".toList, 11),
          ("09:10".toList, 9)].map Prod.fst, k ≠ k₁ → k ≤ k₂)) :=
  ⟨⟨by decide, by decide⟩, by rfl, C4_extraction _ (by decide) (by decide)⟩

end CheckStockPrice
